import Mathlib

/-!
Shallow embedding of the poker game program
(src/programs/poker_game/src/lib.rs) and verification of its
specification claims.

Modelling conventions:
- Participant identities (Solana pubkeys) are natural numbers; the
  empty-slot sentinel Pubkey::default() is 0.  Real signers are nonzero.
- Machine integers (u64, u8) are Nat with explicit reduction modulo
  2 ^ 64 (resp. 2 ^ 8) at every operation where the Rust code can wrap.
- Each instruction is a pure function Game -> Except PokerError Game.
  A returned error models the on-chain rollback: no state change is
  committed, which is why the error constructors carry no state.
- External collaborators (the system-program lamport transfer, the
  clock) are modelled as always succeeding; the shuffle seed, which the
  source derives from the clock plus one account byte, is taken as an
  arbitrary parameter.
-/

def U64 : Nat := 2 ^ 64

def U8 : Nat := 2 ^ 8

inductive PokerError where
  | GameFull
  | GameAlreadyStarted
  | GameNotActive
  | PlayerNotInGame
  | PlayerAlreadyFolded
  | PlayerFolded
  | NotPlayersTurn
  | BetTooLow
  | NoActivePlayers
  | NotAuthorized
deriving DecidableEq, Repr

/-- The persisted Game account state, mirroring `struct Game` in the
source field by field (fixed-size arrays become lists of the
corresponding fixed length in all reachable states). -/
structure Game where
  players : List Nat
  player_hands : List (Nat × Nat)
  community_cards : List Nat
  pot : Nat
  small_blind : Nat
  big_blind : Nat
  current_bet : Nat
  current_turn : Nat
  betting_round : Nat
  is_active : Bool
  folded : List Bool
  player_bets : List Nat
  players_in_round : Nat
deriving DecidableEq, Repr

instance {ε α : Type} [DecidableEq ε] [DecidableEq α] : DecidableEq (Except ε α) := fun a b =>
  match a, b with
  | .error x, .error y =>
    if h : x = y then .isTrue (by rw [h]) else .isFalse (fun hc => by cases hc; exact h rfl)
  | .ok x, .ok y =>
    if h : x = y then .isTrue (by rw [h]) else .isFalse (fun hc => by cases hc; exact h rfl)
  | .error _, .ok _ => .isFalse (fun hc => by cases hc)
  | .ok _, .error _ => .isFalse (fun hc => by cases hc)

/-- Embedding of `iter().position(|&q| q == p)` on the players array:
index of the first occurrence of p. -/
def position (l : List Nat) (p : Nat) : Option Nat :=
  match l with
  | [] => none
  | q :: qs => if q = p then some 0 else (position qs p).map (· + 1)

/-- One step of the linear congruential generator from `pseudo_shuffle`:
`state = state.wrapping_mul(6364136223846793005).wrapping_add(1)`. -/
def lcgNext (state : Nat) : Nat :=
  (state * 6364136223846793005 + 1) % U64

/-- Embedding of `deck.swap(i, j)` on lists (both reads are from the
original list, as in the Rust swap). -/
def listSwap (l : List Nat) (i j : Nat) : List Nat :=
  (l.set i (l.getD j 0)).set j (l.getD i 0)

/-- The Fisher–Yates loop of `pseudo_shuffle`, iterating the current
index downward: argument `i` is the current position, positions
`i, i-1, ..., 1` remain to be processed. -/
def shuffleIter : List Nat → Nat → Nat → List Nat
  | deck, _, 0 => deck
  | deck, state, i + 1 =>
    shuffleIter (listSwap deck (i + 1) (lcgNext state % (i + 2))) (lcgNext state) i

/-- Embedding of `pseudo_shuffle(&mut deck, seed)`: runs the
Fisher–Yates pass from the last index down to 1. -/
def pseudo_shuffle (deck : List Nat) (seed : Nat) : List Nat :=
  shuffleIter deck seed (deck.length - 1)

/-- Number of occupied seats (identity differs from the sentinel). -/
def occCount : List Nat → Nat
  | [] => 0
  | p :: ps => (if p ≠ 0 then 1 else 0) + occCount ps

/-- The hole-card dealing loop of `start_round`: walks the seats in
order; an occupied seat receives the next two deck cards, an empty seat
keeps its previous (stale) hand bytes.  Returns the new hands array and
the remaining deck. -/
def dealHands : List Nat → List (Nat × Nat) → List Nat → List (Nat × Nat) × List Nat
  | [], _, deck => ([], deck)
  | _ :: _, [], deck => ([], deck)
  | p :: ps, h :: hs, deck =>
    if p ≠ 0 then
      let rest := dealHands ps hs (deck.drop 2)
      ((deck.getD 0 0, deck.getD 1 0) :: rest.1, rest.2)
    else
      let rest := dealHands ps hs deck
      (h :: rest.1, rest.2)

/-- The cards actually dealt to occupied seats, flattened in seat
order (empty seats contribute nothing). -/
def dealtHoleCards : List Nat → List (Nat × Nat) → List Nat
  | [], _ => []
  | _ :: _, [] => []
  | p :: ps, h :: hs =>
    (if p ≠ 0 then [h.1, h.2] else []) ++ dealtHoleCards ps hs

/-- All cards dealt by the current round: hole cards of occupied seats
followed by the five community cards. -/
def dealtCards (g : Game) : List Nat :=
  dealtHoleCards g.players g.player_hands ++ g.community_cards

/-- The scan loop of `next_active_player`: advances cyclically modulo 6
and returns the first occupied, not-folded seat, with at most `fuel`
steps remaining. -/
def nextActiveAux (players : List Nat) (folded : List Bool) : Nat → Nat → Except PokerError Nat
  | _, 0 => .error .NoActivePlayers
  | next, fuel + 1 =>
    if players.getD ((next + 1) % 6) 0 ≠ 0 ∧ folded.getD ((next + 1) % 6) false = false then
      .ok ((next + 1) % 6)
    else nextActiveAux players folded ((next + 1) % 6) fuel

/-- Embedding of `next_active_player`: scans at most MAX_PLAYERS = 6
positions starting after `current_turn`. -/
def nextActivePlayer (players : List Nat) (folded : List Bool) (current_turn : Nat) : Except PokerError Nat :=
  nextActiveAux players folded current_turn 6

/-- Number of seats that are occupied and not folded (the quantity the
spec calls seatsRemaining). -/
def countOccNotFolded (g : Game) : Nat :=
  (List.range 6).countP (fun i => g.players.getD i 0 != 0 && !(g.folded.getD i false))

/-- Sum of contributions over all seats. -/
def sumBets (g : Game) : Nat :=
  g.player_bets.sum

/-- No two occupied seats hold the same identity (the sentinel 0 means
empty, so this only constrains nonzero entries). -/
@[reducible] def seatsOk (players : List Nat) : Prop :=
  ∀ a, a < players.length → ∀ b, b < players.length →
    a ≠ b → players.getD a 0 ≠ 0 → players.getD a 0 ≠ players.getD b 0

/-- Extracts the success state of an instruction, with a default for the
error case (used only to name concrete trace states). -/
def exGet (e : Except PokerError Game) (d : Game) : Game :=
  match e with
  | .ok g => g
  | .error _ => d

/-- Embedding of `initialize_game`: the freshly allocated table. -/
def initialize_game (small_blind big_blind : Nat) : Game where
  players := List.replicate 6 0
  player_hands := List.replicate 6 (0, 0)
  community_cards := List.replicate 5 0
  pot := 0
  small_blind := small_blind
  big_blind := big_blind
  current_bet := 0
  current_turn := 0
  betting_round := 0
  is_active := false
  folded := List.replicate 6 false
  player_bets := List.replicate 6 0
  players_in_round := 0

/-- Embedding of `join_game`: seats the caller in the first empty slot,
increments players_in_round, and (for a positive deposit) transfers the
deposit into the pot; fails with GameFull when no slot is empty.  The
Rust loop mutates before the `require!(joined)`, but a failed require
rolls the instruction back, so the committed effect is exactly this.
The instruction never reads `is_active`. -/
def join_game (p deposit : Nat) (g : Game) : Except PokerError Game :=
  match position g.players 0 with
  | none => .error .GameFull
  | some k =>
    .ok { g with
      players := g.players.set k p,
      players_in_round := (g.players_in_round + 1) % U8,
      pot := if deposit > 0 then (g.pot + deposit) % U64 else g.pot }

/-- Embedding of `start_round`: requires the round inactive, shuffles a
fresh 0..51 deck with the seeded LCG Fisher–Yates pass, resets folds,
contributions and pot, deals two cards per occupied seat then five
community cards, and opens betting at the big blind.  Note that
`players_in_round` is not touched. -/
def start_round (seed : Nat) (g : Game) : Except PokerError Game :=
  if g.is_active = true then .error .GameAlreadyStarted
  else
    let deck := pseudo_shuffle (List.range 52) seed
    let dealt := dealHands g.players g.player_hands deck
    .ok { g with
      folded := List.replicate 6 false,
      player_bets := List.replicate 6 0,
      pot := 0,
      player_hands := dealt.1,
      community_cards := dealt.2.take 5,
      is_active := true,
      betting_round := 0,
      current_turn := 0,
      current_bet := g.big_blind }

/-- Embedding of `bet`: after the common preconditions, requires
`amount >= current_bet`, then overwrites the seat contribution with
`amount`, adds the full `amount` to the pot, raises `current_bet` to
`amount` and advances the turn. -/
def bet (p amount : Nat) (g : Game) : Except PokerError Game :=
  if g.is_active = true then
    match position g.players p with
    | none => .error .PlayerNotInGame
    | some i =>
      if g.folded.getD i false = true then .error .PlayerFolded
      else if i = g.current_turn then
        if amount < g.current_bet then .error .BetTooLow
        else
          match nextActivePlayer g.players g.folded g.current_turn with
          | .error e => .error e
          | .ok t =>
            .ok { g with
              player_bets := g.player_bets.set i amount,
              pot := (g.pot + amount) % U64,
              current_bet := amount,
              current_turn := t }
      else .error .NotPlayersTurn
  else .error .GameNotActive

/-- Embedding of `call`: owes `current_bet.saturating_sub(contribution)`
(Nat subtraction is exactly saturating subtraction), adds it to both the
seat contribution and the pot, and advances the turn. -/
def call (p : Nat) (g : Game) : Except PokerError Game :=
  if g.is_active = true then
    match position g.players p with
    | none => .error .PlayerNotInGame
    | some i =>
      if g.folded.getD i false = true then .error .PlayerFolded
      else if i = g.current_turn then
        let to_call := g.current_bet - g.player_bets.getD i 0
        match nextActivePlayer g.players g.folded g.current_turn with
        | .error e => .error e
        | .ok t =>
          .ok { g with
            player_bets := g.player_bets.set i ((g.player_bets.getD i 0 + to_call) % U64),
            pot := (g.pot + to_call) % U64,
            current_turn := t }
      else .error .NotPlayersTurn
  else .error .GameNotActive

/-- Embedding of `fold`: marks the seat folded and decrements
`players_in_round` with u8 wrapping semantics.  If the counter then
equals 1 the round is closed (`is_active := false`) with no transfer of
any kind; otherwise the turn advances (and the instruction fails with
NoActivePlayers, rolling back, if no eligible seat remains). -/
def fold (p : Nat) (g : Game) : Except PokerError Game :=
  if g.is_active = true then
    match position g.players p with
    | none => .error .PlayerNotInGame
    | some i =>
      if g.folded.getD i false = true then .error .PlayerAlreadyFolded
      else if i = g.current_turn then
        let folded1 := g.folded.set i true
        let pir1 := (g.players_in_round + 255) % U8
        if pir1 = 1 then
          .ok { g with folded := folded1, players_in_round := pir1, is_active := false }
        else
          match nextActivePlayer g.players folded1 g.current_turn with
          | .error e => .error e
          | .ok t =>
            .ok { g with folded := folded1, players_in_round := pir1, current_turn := t }
      else .error .NotPlayersTurn
  else .error .GameNotActive

/-- Embedding of `reveal_winner`: requires an active round and a seated,
not-folded winner; transfers the whole pot to the winner (external
lamport move), zeroes the pot and deactivates the round.  Cards, seats
and fold flags are left untouched. -/
def reveal_winner (winner : Nat) (g : Game) : Except PokerError Game :=
  if g.is_active = true then
    match position g.players winner with
    | none => .error .PlayerNotInGame
    | some wi =>
      if g.folded.getD wi false = true then .error .PlayerFolded
      else .ok { g with pot := 0, is_active := false }
  else .error .GameNotActive

/-- Embedding of `end_game`: only the seat-0 identity passes the
authorization check, an active round is required, the pot (if any) is
refunded to the caller, and every field except the two blinds is reset —
exactly the state `initialize_game` produces for the same blinds. -/
def end_game (signer : Nat) (g : Game) : Except PokerError Game :=
  if signer = g.players.getD 0 0 then
    if g.is_active = true then
      .ok (initialize_game g.small_blind g.big_blind)
    else .error .GameNotActive
  else .error .NotAuthorized

/-! Concrete trace states used by the closed theorems.  Identities 1 and
2 join a fresh table, a round is played to a fold-out, and a second
round is started: the stale `players_in_round` counter surfaces. -/

def gInit : Game := initialize_game 5 10

def gJ1 : Game := exGet (join_game 1 0 gInit) gInit

def gJ2 : Game := exGet (join_game 2 0 gJ1) gInit

def gR1 : Game := exGet (start_round 0 gJ2) gInit

def gF1 : Game := exGet (fold 1 gR1) gInit

def gR2 : Game := exGet (start_round 0 gF1) gInit

def gF2 : Game := exGet (fold 1 gR2) gInit

/-- State after identity 1 joins the fresh table with deposit 7. -/
def gDeposit : Game := exGet (join_game 1 7 gInit) gInit

/-- State after the same identity 1 joins twice in a row. -/
def gDup : Game := exGet (join_game 1 0 gJ1) gInit

/-! List helper lemmas. -/

lemma getD_set_self : ∀ (l : List Nat) (k v : Nat), k < l.length → (l.set k v).getD k 0 = v := by
  intro l
  induction l with
  | nil => intro k v hk; simp at hk
  | cons a t ih =>
    intro k v hk
    cases k with
    | zero => simp [List.set]
    | succ k => simpa [List.set] using ih k v (by simpa using hk)

lemma getD_set_ne : ∀ (l : List Nat) (k v a : Nat), a ≠ k → (l.set k v).getD a 0 = l.getD a 0 := by
  intro l
  induction l with
  | nil => intro k v a _; simp
  | cons b t ih =>
    intro k v a hne
    cases k with
    | zero =>
      cases a with
      | zero => exact absurd rfl hne
      | succ a => simp [List.set]
    | succ k =>
      cases a with
      | zero => simp [List.set]
      | succ a => simpa [List.set] using ih k v a (by omega)

lemma set_getD_self : ∀ (l : List Nat) (k : Nat), k < l.length → l.set k (l.getD k 0) = l := by
  intro l
  induction l with
  | nil => intro k hk; simp at hk
  | cons a t ih =>
    intro k hk
    cases k with
    | zero => simp [List.set]
    | succ k => simpa [List.set] using ih k (by simpa using hk)

lemma getD_mem : ∀ (l : List Nat) (k : Nat), k < l.length → l.getD k 0 ∈ l := by
  intro l
  induction l with
  | nil => intro k hk; simp at hk
  | cons a t ih =>
    intro k hk
    cases k with
    | zero => simp
    | succ k => exact List.mem_cons_of_mem a (ih k (by simpa using hk))

lemma sum_set_add : ∀ (l : List Nat) (k v : Nat), k < l.length →
    (l.set k v).sum + l.getD k 0 = l.sum + v := by
  intro l
  induction l with
  | nil => intro k v hk; simp at hk
  | cons a t ih =>
    intro k v hk
    cases k with
    | zero =>
      simp only [List.set, List.sum_cons, List.getD_cons_zero]
      omega
    | succ k =>
      have h2 := ih k v (by simpa using hk)
      simp only [List.set, List.sum_cons, List.getD_cons_succ]
      omega

lemma position_some : ∀ (l : List Nat) (p i : Nat), position l p = some i →
    i < l.length ∧ l.getD i 0 = p := by
  intro l
  induction l with
  | nil => intro p i h; simp [position] at h
  | cons q qs ih =>
    intro p i h
    simp only [position] at h
    split at h
    case isTrue hq =>
      cases h
      simpa using hq
    case isFalse hq =>
      cases hm : position qs p with
      | none => rw [hm] at h; simp at h
      | some i0 =>
        rw [hm] at h
        simp at h
        obtain ⟨hlt, hget⟩ := ih p i0 hm
        cases h
        constructor
        · simpa using hlt
        · simpa using hget

/-! Permutation of the Fisher–Yates pass. -/

lemma cons_set_perm (a : Nat) : ∀ (t : List Nat) (k : Nat), k < t.length →
    (t.getD k 0 :: t.set k a).Perm (a :: t) := by
  intro t
  induction t with
  | nil => intro k hk; simp at hk
  | cons b u ih =>
    intro k hk
    cases k with
    | zero =>
      simp only [List.getD_cons_zero, List.set]
      exact List.Perm.swap a b u
    | succ k =>
      simp only [List.getD_cons_succ, List.set]
      have h1 : (u.getD k 0 :: b :: u.set k a).Perm (b :: u.getD k 0 :: u.set k a) :=
        List.Perm.swap b (u.getD k 0) (u.set k a)
      have h2 : (b :: u.getD k 0 :: u.set k a).Perm (b :: a :: u) :=
        (ih k (by simpa using hk)).cons b
      have h3 : (b :: a :: u).Perm (a :: b :: u) := List.Perm.swap a b u
      exact (h1.trans h2).trans h3

lemma set_set_perm : ∀ (l : List Nat) (i j : Nat), i < l.length → j < l.length →
    ((l.set i (l.getD j 0)).set j (l.getD i 0)).Perm l := by
  intro l
  induction l with
  | nil => intro i j hi _; simp at hi
  | cons a t ih =>
    intro i j hi hj
    cases i with
    | zero =>
      cases j with
      | zero => simp [List.set]
      | succ m =>
        simp only [List.getD_cons_zero, List.getD_cons_succ, List.set]
        exact cons_set_perm a t m (by simpa using hj)
    | succ n =>
      cases j with
      | zero =>
        simp only [List.getD_cons_zero, List.getD_cons_succ, List.set]
        exact cons_set_perm a t n (by simpa using hi)
      | succ m =>
        simp only [List.getD_cons_succ, List.set]
        exact (ih n m (by simpa using hi) (by simpa using hj)).cons a

lemma listSwap_perm (l : List Nat) (i j : Nat) (hi : i < l.length) (hj : j < l.length) :
    (listSwap l i j).Perm l :=
  set_set_perm l i j hi hj

lemma listSwap_length (l : List Nat) (i j : Nat) : (listSwap l i j).length = l.length := by
  simp [listSwap]

lemma shuffleIter_perm : ∀ (i : Nat) (deck : List Nat) (state : Nat), i < deck.length →
    (shuffleIter deck state i).Perm deck := by
  intro i
  induction i with
  | zero => intro deck state _; simp [shuffleIter]
  | succ i ih =>
    intro deck state h
    simp only [shuffleIter]
    have hswap : (listSwap deck (i + 1) (lcgNext state % (i + 2))).Perm deck :=
      listSwap_perm deck (i + 1) (lcgNext state % (i + 2)) h
        (lt_of_lt_of_le (Nat.mod_lt _ (by omega)) (by omega))
    have hlen : i < (listSwap deck (i + 1) (lcgNext state % (i + 2))).length := by
      rw [listSwap_length]; omega
    exact (ih _ (lcgNext state) hlen).trans hswap

lemma pseudo_shuffle_perm (seed : Nat) :
    (pseudo_shuffle (List.range 52) seed).Perm (List.range 52) := by
  have h : (51 : Nat) < (List.range 52).length := by simp
  simpa [pseudo_shuffle] using shuffleIter_perm 51 (List.range 52) seed h

/-! Dealing lemmas: the dealt cards are a prefix of the shuffled deck. -/

lemma occCount_le_length : ∀ (l : List Nat), occCount l ≤ l.length := by
  intro l
  induction l with
  | nil => simp [occCount]
  | cons p ps ih =>
    simp only [occCount, List.length_cons]
    split <;> omega

lemma dealHands_snd : ∀ (ps : List Nat) (hs : List (Nat × Nat)) (deck : List Nat),
    ps.length = hs.length → (dealHands ps hs deck).2 = deck.drop (2 * occCount ps) := by
  intro ps
  induction ps with
  | nil => intro hs deck _; simp [dealHands, occCount]
  | cons p ps ih =>
    intro hs deck h
    cases hs with
    | nil => simp at h
    | cons h0 hs =>
      by_cases hp : p ≠ 0
      · have harith : 2 * occCount (p :: ps) = 2 * occCount ps + 2 := by
          simp [occCount, hp]; omega
        rw [harith]
        simp only [dealHands, if_pos hp]
        rw [ih hs (deck.drop 2) (by simpa using h)]
        rw [List.drop_drop]
        congr 1
        omega
      · have harith : 2 * occCount (p :: ps) = 2 * occCount ps := by
          simp [occCount, hp]
        rw [harith]
        simp only [dealHands, if_neg hp]
        exact ih hs deck (by simpa using h)

lemma dealHands_dealt : ∀ (ps : List Nat) (hs : List (Nat × Nat)) (deck : List Nat),
    ps.length = hs.length → 2 * occCount ps ≤ deck.length →
    dealtHoleCards ps (dealHands ps hs deck).1 = deck.take (2 * occCount ps) := by
  intro ps
  induction ps with
  | nil => intro hs deck _ _; simp [dealHands, dealtHoleCards, occCount]
  | cons p ps ih =>
    intro hs deck h hlen
    cases hs with
    | nil => simp at h
    | cons h0 hs =>
      by_cases hp : p ≠ 0
      · have harith : 2 * occCount (p :: ps) = 2 * occCount ps + 2 := by
          simp [occCount, hp]; omega
        rw [harith] at hlen ⊢
        cases deck with
        | nil => simp at hlen
        | cons a deck1 =>
          cases deck1 with
          | nil => simp at hlen
          | cons b dd =>
            simp only [dealHands, if_pos hp, dealtHoleCards]
            have hd2 : (a :: b :: dd).drop 2 = dd := rfl
            have hg0 : (a :: b :: dd).getD 0 0 = a := rfl
            have hg1 : (a :: b :: dd).getD 1 0 = b := rfl
            rw [hd2, hg0, hg1]
            rw [ih hs dd (by simpa using h) (by simp at hlen; omega)]
            have htake : (a :: b :: dd).take (2 * occCount ps + 2) =
                a :: b :: dd.take (2 * occCount ps) := by
              have : 2 * occCount ps + 2 = (2 * occCount ps + 1) + 1 := by omega
              rw [this]
              simp [List.take_succ_cons]
            rw [htake]
            simp [hp]
      · have harith : 2 * occCount (p :: ps) = 2 * occCount ps := by
          simp [occCount, hp]
        rw [harith] at hlen ⊢
        simp only [dealHands, if_neg hp, dealtHoleCards]
        rw [ih hs deck (by simpa using h) hlen]
        simp [hp]

/-! Turn-tracker lemmas. -/

lemma nextActiveAux_ok_props (players : List Nat) (folded : List Bool) :
    ∀ (fuel next t : Nat), nextActiveAux players folded next fuel = .ok t →
      t < 6 ∧ players.getD t 0 ≠ 0 ∧ folded.getD t false = false := by
  intro fuel
  induction fuel with
  | zero => intro next t h; simp [nextActiveAux] at h
  | succ fuel ih =>
    intro next t h
    simp only [nextActiveAux] at h
    split at h
    case isTrue hc =>
      cases h
      exact ⟨Nat.mod_lt _ (by omega), hc.1, hc.2⟩
    case isFalse hc =>
      exact ih _ t h

lemma nextActiveAux_ok_exists (players : List Nat) (folded : List Bool) :
    ∀ (fuel next q : Nat), players.getD q 0 ≠ 0 → folded.getD q false = false →
      (∃ k, 1 ≤ k ∧ k ≤ fuel ∧ (next + k) % 6 = q) →
      ∃ t, nextActiveAux players folded next fuel = .ok t := by
  intro fuel
  induction fuel with
  | zero =>
    intro next q _ _ hk
    obtain ⟨k, h1, h2, _⟩ := hk
    omega
  | succ fuel ih =>
    intro next q hq1 hq2 hk
    obtain ⟨k, hk1, hk2, hk3⟩ := hk
    simp only [nextActiveAux]
    split
    case isTrue hc => exact ⟨_, rfl⟩
    case isFalse hc =>
      apply ih ((next + 1) % 6) q hq1 hq2
      have hkne : k ≠ 1 := by
        intro h1
        subst h1
        rw [hk3] at hc
        exact hc ⟨hq1, hq2⟩
      refine ⟨k - 1, by omega, by omega, ?_⟩
      rw [Nat.mod_add_mod]
      have harith : next + 1 + (k - 1) = next + k := by omega
      rw [harith, hk3]

lemma nextActivePlayer_self (players : List Nat) (folded : List Bool) (i : Nat)
    (hi : i < 6) (hocc : players.getD i 0 ≠ 0) (hnf : folded.getD i false = false) :
    ∃ t, nextActivePlayer players folded i = .ok t := by
  apply nextActiveAux_ok_exists players folded 6 i i hocc hnf
  refine ⟨6, by omega, by omega, ?_⟩
  rw [Nat.add_mod_right]
  exact Nat.mod_eq_of_lt hi

/-! Characterization of a successful start_round. -/

lemma start_round_eq (seed : Nat) (g : Game) (h : g.is_active = false) :
    start_round seed g = .ok { g with
      folded := List.replicate 6 false,
      player_bets := List.replicate 6 0,
      pot := 0,
      player_hands := (dealHands g.players g.player_hands (pseudo_shuffle (List.range 52) seed)).1,
      community_cards := ((dealHands g.players g.player_hands (pseudo_shuffle (List.range 52) seed)).2).take 5,
      is_active := true,
      betting_round := 0,
      current_turn := 0,
      current_bet := g.big_blind } := by
  simp [start_round, h]

/-- Claim C3: for every seed and every arrangement of occupied seats, a
successful startRound draws from a deck that the LCG Fisher–Yates pass
(pseudo_shuffle) produced as a permutation of the card codes 0..51, and
the dealt hole cards of occupied seats together with the five community
cards are pairwise distinct. -/
theorem c3_start_round_deals_distinct (seed : Nat) (g g1 : Game)
    (hp : g.players.length = 6) (hh : g.player_hands.length = 6)
    (hact : g.is_active = false) (hstart : start_round seed g = .ok g1) :
    (pseudo_shuffle (List.range 52) seed).Perm (List.range 52) ∧ (dealtCards g1).Nodup := by
  have hperm := pseudo_shuffle_perm seed
  refine ⟨hperm, ?_⟩
  rw [start_round_eq seed g hact] at hstart
  have hg1 := Except.ok.inj hstart
  subst hg1
  have hdlen : (pseudo_shuffle (List.range 52) seed).length = 52 := by
    rw [hperm.length_eq]
    simp
  have hocc : occCount g.players ≤ 6 := hp ▸ occCount_le_length g.players
  have h2occ : 2 * occCount g.players ≤ (pseudo_shuffle (List.range 52) seed).length := by
    omega
  show (dealtHoleCards g.players
      (dealHands g.players g.player_hands (pseudo_shuffle (List.range 52) seed)).1 ++
      ((dealHands g.players g.player_hands (pseudo_shuffle (List.range 52) seed)).2).take 5).Nodup
  rw [dealHands_dealt g.players g.player_hands _ (hp.trans hh.symm) h2occ]
  rw [dealHands_snd g.players g.player_hands _ (hp.trans hh.symm)]
  rw [← List.take_add]
  have hnd : (pseudo_shuffle (List.range 52) seed).Nodup :=
    hperm.nodup_iff.mpr (List.nodup_range 52)
  exact hnd.sublist (List.take_sublist _ _)

/-- Witness for C3: the theorem applied to the concrete two-player table
gJ2 with seed 0, whose started round is gR1. -/
theorem c3_start_round_deals_distinct_witness :
    gJ2.is_active = false ∧
    ((pseudo_shuffle (List.range 52) 0).Perm (List.range 52) ∧ (dealtCards gR1).Nodup) :=
  ⟨by decide, c3_start_round_deals_distinct 0 gJ2 gR1 (by decide) (by decide) (by decide) (by decide)⟩

/-- Claim C4: in an active game where the caller p occupies seat i, is
not folded, and holds the turn, bet fails with BetTooLow exactly when
the amount is below currentBet; on success it overwrites the seat
contribution with the amount (absolute, not added), adds the full
amount to the pot, raises currentBet to the amount, and advances
currentTurn to the next occupied, non-folded seat. -/
theorem c4_bet_semantics (g : Game) (p amount i : Nat)
    (hp : p ≠ 0)
    (hlen : g.players.length = 6)
    (hact : g.is_active = true)
    (hfind : position g.players p = some i)
    (hnf : g.folded.getD i false = false)
    (hturn : g.current_turn = i)
    (hpot : g.pot + amount < U64) :
    (amount < g.current_bet → bet p amount g = .error .BetTooLow) ∧
    (g.current_bet ≤ amount → ∃ t, nextActivePlayer g.players g.folded g.current_turn = .ok t ∧
      t < 6 ∧ g.players.getD t 0 ≠ 0 ∧ g.folded.getD t false = false ∧
      bet p amount g = .ok { g with
        player_bets := g.player_bets.set i amount,
        pot := g.pot + amount,
        current_bet := amount,
        current_turn := t }) := by
  obtain ⟨hilt, hieq⟩ := position_some g.players p i hfind
  have hi6 : i < 6 := by omega
  have hiocc : g.players.getD i 0 ≠ 0 := by rw [hieq]; exact hp
  have hnf2 : g.folded[i]?.getD false = false := by simpa using hnf
  constructor
  · intro hlt
    simp [bet, hact, hfind, hnf2, hturn, hlt]
  · intro hge
    obtain ⟨t, ht⟩ := nextActivePlayer_self g.players g.folded i hi6 hiocc hnf
    obtain ⟨ht6, htocc, htnf⟩ := nextActiveAux_ok_props g.players g.folded 6 i t ht
    refine ⟨t, by rw [hturn]; exact ht, ht6, htocc, htnf, ?_⟩
    simp [bet, hact, hfind, hnf2, hturn, Nat.not_lt.mpr hge, ht, Nat.mod_eq_of_lt hpot]

/-- Witness for C4: the theorem applied to the started round gR1, where
seat 0 (identity 1) bets 15 against currentBet 10. -/
theorem c4_bet_semantics_witness :
    gR1.is_active = true ∧ gR1.current_bet ≤ 15 ∧
    ((15 < gR1.current_bet → bet 1 15 gR1 = .error .BetTooLow) ∧
     (gR1.current_bet ≤ 15 → ∃ t, nextActivePlayer gR1.players gR1.folded gR1.current_turn = .ok t ∧
       t < 6 ∧ gR1.players.getD t 0 ≠ 0 ∧ gR1.folded.getD t false = false ∧
       bet 1 15 gR1 = .ok { gR1 with
         player_bets := gR1.player_bets.set 0 15,
         pot := gR1.pot + 15,
         current_bet := 15,
         current_turn := t })) :=
  ⟨by decide, by decide,
    c4_bet_semantics gR1 1 15 0 (by decide) (by decide) (by decide) (by decide) (by decide)
      (by decide) (by decide)⟩

/-- Claim C5: in an active game where the caller p occupies seat i, is
not folded, and holds the turn, call owes currentBet minus the seat
contribution (saturating at zero), adds that to both the contribution
and the pot, and advances the turn to the next occupied, non-folded
seat; when the contribution already equals currentBet, both pot and the
contributions are left unchanged. -/
theorem c5_call_semantics (g : Game) (p i : Nat)
    (hp : p ≠ 0)
    (hlen : g.players.length = 6)
    (hblen : g.player_bets.length = 6)
    (hact : g.is_active = true)
    (hfind : position g.players p = some i)
    (hnf : g.folded.getD i false = false)
    (hturn : g.current_turn = i)
    (hcb : g.pot + g.current_bet < U64)
    (hbi : g.player_bets.getD i 0 < U64) :
    ∃ t, nextActivePlayer g.players g.folded g.current_turn = .ok t ∧
      t < 6 ∧ g.players.getD t 0 ≠ 0 ∧ g.folded.getD t false = false ∧
      call p g = .ok { g with
        player_bets := g.player_bets.set i
          (g.player_bets.getD i 0 + (g.current_bet - g.player_bets.getD i 0)),
        pot := g.pot + (g.current_bet - g.player_bets.getD i 0),
        current_turn := t } ∧
      (g.player_bets.getD i 0 = g.current_bet →
        call p g = .ok { g with current_turn := t }) := by
  obtain ⟨hilt, hieq⟩ := position_some g.players p i hfind
  have hi6 : i < 6 := by omega
  have hiocc : g.players.getD i 0 ≠ 0 := by rw [hieq]; exact hp
  obtain ⟨t, ht⟩ := nextActivePlayer_self g.players g.folded i hi6 hiocc hnf
  obtain ⟨ht6, htocc, htnf⟩ := nextActiveAux_ok_props g.players g.folded 6 i t ht
  have hmod1 : (g.player_bets.getD i 0 + (g.current_bet - g.player_bets.getD i 0)) % U64 =
      g.player_bets.getD i 0 + (g.current_bet - g.player_bets.getD i 0) :=
    Nat.mod_eq_of_lt (by omega)
  have hmod2 : (g.pot + (g.current_bet - g.player_bets.getD i 0)) % U64 =
      g.pot + (g.current_bet - g.player_bets.getD i 0) :=
    Nat.mod_eq_of_lt (by omega)
  have hnf2 : g.folded[i]?.getD false = false := by simpa using hnf
  have hmod1b : (g.player_bets[i]?.getD 0 + (g.current_bet - g.player_bets[i]?.getD 0)) % U64 =
      g.player_bets[i]?.getD 0 + (g.current_bet - g.player_bets[i]?.getD 0) := by
    simpa using hmod1
  have hmod2b : (g.pot + (g.current_bet - g.player_bets[i]?.getD 0)) % U64 =
      g.pot + (g.current_bet - g.player_bets[i]?.getD 0) := by
    simpa using hmod2
  have hmain : call p g = .ok { g with
      player_bets := g.player_bets.set i
        (g.player_bets.getD i 0 + (g.current_bet - g.player_bets.getD i 0)),
      pot := g.pot + (g.current_bet - g.player_bets.getD i 0),
      current_turn := t } := by
    simp [call, hact, hfind, hnf2, hturn, ht, hmod1b, hmod2b]
  refine ⟨t, by rw [hturn]; exact ht, ht6, htocc, htnf, hmain, ?_⟩
  intro heq
  rw [hmain]
  have hzero : g.current_bet - g.player_bets.getD i 0 = 0 := by omega
  rw [hzero, Nat.add_zero, Nat.add_zero]
  rw [set_getD_self g.player_bets i (by omega)]

/-- Witness for C5: the theorem applied to gR1, where seat 0 (identity
1) calls the opening big-blind bet of 10. -/
theorem c5_call_semantics_witness :
    gR1.is_active = true ∧
    (∃ t, nextActivePlayer gR1.players gR1.folded gR1.current_turn = .ok t ∧
      t < 6 ∧ gR1.players.getD t 0 ≠ 0 ∧ gR1.folded.getD t false = false ∧
      call 1 gR1 = .ok { gR1 with
        player_bets := gR1.player_bets.set 0
          (gR1.player_bets.getD 0 0 + (gR1.current_bet - gR1.player_bets.getD 0 0)),
        pot := gR1.pot + (gR1.current_bet - gR1.player_bets.getD 0 0),
        current_turn := t } ∧
      (gR1.player_bets.getD 0 0 = gR1.current_bet →
        call 1 gR1 = .ok { gR1 with current_turn := t })) :=
  ⟨by decide,
    c5_call_semantics gR1 1 0 (by decide) (by decide) (by decide) (by decide) (by decide)
      (by decide) (by decide) (by decide) (by decide)⟩

/-- Claim C6 (amended): in an active game where the caller p occupies
seat i, is not folded, and holds the turn, fold marks the seat folded
and decrements the players_in_round counter; when that counter reaches
exactly 1 the round ends immediately (is_active becomes false) with the
turn left in place, otherwise the turn advances to the next occupied,
non-folded seat; in every successful case the pot and the contributions
are untouched and no payout of any kind occurs. -/
theorem c6_fold_semantics (g : Game) (p i : Nat)
    (hact : g.is_active = true)
    (hfind : position g.players p = some i)
    (hnf : g.folded.getD i false = false)
    (hturn : g.current_turn = i) :
    ((g.players_in_round + 255) % U8 = 1 →
      fold p g = .ok { g with folded := g.folded.set i true,
                              players_in_round := 1, is_active := false }) ∧
    ((g.players_in_round + 255) % U8 ≠ 1 →
      ∀ t, nextActivePlayer g.players (g.folded.set i true) g.current_turn = .ok t →
        g.players.getD t 0 ≠ 0 ∧ (g.folded.set i true).getD t false = false ∧
        fold p g = .ok { g with folded := g.folded.set i true,
                                players_in_round := (g.players_in_round + 255) % U8,
                                current_turn := t }) ∧
    (∀ g1, fold p g = .ok g1 → g1.pot = g.pot ∧ g1.player_bets = g.player_bets) := by
  have hnf2 : g.folded[i]?.getD false = false := by simpa using hnf
  have hcase1 : (g.players_in_round + 255) % U8 = 1 →
      fold p g = .ok { g with folded := g.folded.set i true,
                              players_in_round := (g.players_in_round + 255) % U8,
                              is_active := false } := by
    intro hpir
    simp [fold, hact, hfind, hnf2, hturn, hpir]
  have hcase2 : ∀ t, (g.players_in_round + 255) % U8 ≠ 1 →
      nextActivePlayer g.players (g.folded.set i true) i = .ok t →
      fold p g = .ok { g with folded := g.folded.set i true,
                              players_in_round := (g.players_in_round + 255) % U8,
                              current_turn := t } := by
    intro t hpir ht
    simp [fold, hact, hfind, hnf2, hturn, hpir, ht]
  have hcase3 : ∀ e, (g.players_in_round + 255) % U8 ≠ 1 →
      nextActivePlayer g.players (g.folded.set i true) i = .error e →
      fold p g = .error e := by
    intro e hpir ht
    simp [fold, hact, hfind, hnf2, hturn, hpir, ht]
  refine ⟨?_, ?_, ?_⟩
  · intro hpir
    have h1 := hcase1 hpir
    rw [hpir] at h1
    exact h1
  · intro hpir t ht
    obtain ⟨ht6, htocc, htnf⟩ :=
      nextActiveAux_ok_props g.players (g.folded.set i true) 6 g.current_turn t ht
    rw [hturn] at ht
    exact ⟨htocc, htnf, hcase2 t hpir ht⟩
  · intro g1 h
    by_cases hpir : (g.players_in_round + 255) % U8 = 1
    · rw [hcase1 hpir] at h
      rw [Except.ok.injEq] at h
      subst h
      exact ⟨rfl, rfl⟩
    · cases hnext : nextActivePlayer g.players (g.folded.set i true) i with
      | error e =>
        rw [hcase3 e hpir hnext] at h
        exact absurd h (by simp)
      | ok t =>
        rw [hcase2 t hpir hnext] at h
        rw [Except.ok.injEq] at h
        subst h
        exact ⟨rfl, rfl⟩

/-- Witness for C6: folding seat 0 in the two-player round gR1 brings
the counter to 1 and ends the round with the pot untouched. -/
theorem c6_fold_semantics_witness :
    (gR1.players_in_round + 255) % U8 = 1 ∧
    fold 1 gR1 = .ok { gR1 with folded := gR1.folded.set 0 true,
                                players_in_round := 1, is_active := false } :=
  ⟨by decide,
    (c6_fold_semantics gR1 1 0 (by decide) (by decide) (by decide) (by decide)).1 (by decide)⟩

/-- Counterexample for C6 as stated: in the reachable state gR2 (second
round started after a fold-out, with the stale players_in_round counter
equal to 1), a successful fold by seat 0 leaves exactly one occupied,
non-folded seat, yet the round does not end: is_active remains true. -/
theorem c6_fold_counterexample :
    join_game 1 0 gInit = .ok gJ1 ∧ join_game 2 0 gJ1 = .ok gJ2 ∧
    start_round 0 gJ2 = .ok gR1 ∧ fold 1 gR1 = .ok gF1 ∧
    start_round 0 gF1 = .ok gR2 ∧ fold 1 gR2 = .ok gF2 ∧
    countOccNotFolded gF2 = 1 ∧ gF2.is_active = true := by
  decide

/-- Claim C8: end_game invoked by any identity other than the one in
seat 0 fails with NotAuthorized (the pure embedding returns only the
error, modelling the full rollback of the instruction), and a
successful end_game implies the caller is the seat-0 identity. -/
theorem c8_end_game_auth (g : Game) (s : Nat) :
    (s ≠ g.players.getD 0 0 → end_game s g = .error .NotAuthorized) ∧
    (∀ g1, end_game s g = .ok g1 → s = g.players.getD 0 0) := by
  constructor
  · intro h
    have h2 : ¬ s = g.players[0]?.getD 0 := by simpa using h
    simp [end_game, h2]
  · intro g1 h
    by_cases hs : s = g.players.getD 0 0
    · exact hs
    · have hs2 : ¬ s = g.players[0]?.getD 0 := by simpa using hs
      simp [end_game, hs2] at h

/-- Witness for C8: identity 2 (seated at seat 1 of the active round
gR1) cannot end the game. -/
theorem c8_end_game_auth_witness :
    (2 : Nat) ≠ gR1.players.getD 0 0 ∧ end_game 2 gR1 = .error .NotAuthorized :=
  ⟨by decide, (c8_end_game_auth gR1 2).1 (by decide)⟩

/-- Claim C10: join_game never reads is_active.  For every state with an
empty seat (the first being seat k) it succeeds, seats the identity at
k, increments players_in_round and adds the deposit to the pot, whatever
is_active is; with no empty seat it fails with GameFull, the only error
this instruction raises. -/
theorem c10_join_ignores_active (g : Game) (p d : Nat)
    (hpir : g.players_in_round < 255)
    (hpot : g.pot + d < U64) :
    (∀ k, position g.players 0 = some k →
      g.players.getD k 0 = 0 ∧
      join_game p d g = .ok { g with
        players := g.players.set k p,
        players_in_round := g.players_in_round + 1,
        pot := g.pot + d }) ∧
    (position g.players 0 = none → join_game p d g = .error .GameFull) := by
  constructor
  · intro k hk
    obtain ⟨hklt, hk0⟩ := position_some g.players 0 k hk
    refine ⟨hk0, ?_⟩
    have hpirm : (g.players_in_round + 1) % U8 = g.players_in_round + 1 :=
      Nat.mod_eq_of_lt (by simp [U8]; omega)
    by_cases hd : d > 0
    · have hpotm : (g.pot + d) % U64 = g.pot + d := Nat.mod_eq_of_lt hpot
      simp [join_game, hk, hpirm, hd, hpotm]
    · have hd0 : d = 0 := by omega
      subst hd0
      simp [join_game, hk, hpirm]
  · intro hnone
    simp [join_game, hnone]

/-- Witness for C10: identity 3 joins with a deposit of 4 in the middle
of the active round gR1, landing in seat 2 and raising the pot. -/
theorem c10_join_ignores_active_witness :
    gR1.is_active = true ∧ position gR1.players 0 = some 2 ∧
    (gR1.players.getD 2 0 = 0 ∧
      join_game 3 4 gR1 = .ok { gR1 with
        players := gR1.players.set 2 3,
        players_in_round := gR1.players_in_round + 1,
        pot := gR1.pot + 4 }) :=
  ⟨by decide, by decide,
    (c10_join_ignores_active gR1 3 4 (by decide) (by decide)).1 2 (by decide)⟩

/-- Claim C1 (amended): pot equals the sum of contributions immediately
after a successful startRound; call and fold preserve the equality, and
bet preserves it exactly when the acting seat's prior contribution is
zero (in general bet adds the full amount to the pot while overwriting
the recorded contribution).  joinGame with a positive deposit raises the
pot with no matching contribution, so the equality is not an invariant
of all reachable states. -/
theorem c1_pot_tracking :
    (∀ seed g g1, start_round seed g = .ok g1 → g1.pot = sumBets g1) ∧
    (∀ p g g1, fold p g = .ok g1 → g1.pot = g.pot ∧ sumBets g1 = sumBets g) ∧
    (∀ p g g1 i, g.is_active = true → position g.players p = some i →
      g.folded.getD i false = false → g.current_turn = i →
      g.players.length = 6 → g.player_bets.length = 6 →
      g.player_bets.getD i 0 ≤ g.current_bet → g.pot + g.current_bet < U64 →
      g.pot = sumBets g → call p g = .ok g1 → g1.pot = sumBets g1) ∧
    (∀ p amount g g1 i, g.is_active = true → position g.players p = some i →
      g.folded.getD i false = false → g.current_turn = i →
      g.players.length = 6 → g.player_bets.length = 6 →
      g.player_bets.getD i 0 = 0 → g.pot + amount < U64 →
      g.pot = sumBets g → bet p amount g = .ok g1 → g1.pot = sumBets g1) := by
  refine ⟨?_, ?_, ?_, ?_⟩
  · intro seed g g1 h
    by_cases hact : g.is_active = true
    · simp [start_round, hact] at h
    · rw [start_round_eq seed g (by simpa using hact)] at h
      rw [Except.ok.injEq] at h
      subst h
      simp [sumBets, List.sum_replicate]
  · intro p g g1 h
    simp only [fold] at h
    split at h
    case isFalse => exact absurd h (by simp)
    case isTrue hact =>
      split at h
      case h_1 => exact absurd h (by simp)
      case h_2 i hfind =>
        split at h
        case isTrue => exact absurd h (by simp)
        case isFalse hnf =>
          split at h
          case isFalse => exact absurd h (by simp)
          case isTrue hturn =>
            split at h
            case isTrue hpir =>
              rw [Except.ok.injEq] at h
              subst h
              exact ⟨rfl, rfl⟩
            case isFalse hpir =>
              split at h
              case h_1 => exact absurd h (by simp)
              case h_2 t hnext =>
                rw [Except.ok.injEq] at h
                subst h
                exact ⟨rfl, rfl⟩
  · intro p g g1 i hact hfind hnf hturn hplen hblen hle hbound hinv h
    have hnf2 : g.folded[i]?.getD false = false := by simpa using hnf
    obtain ⟨hilt, hieq⟩ := position_some g.players p i hfind
    cases hnext : nextActivePlayer g.players g.folded i with
    | error e =>
      have herr : call p g = .error e := by
        simp [call, hact, hfind, hnf2, hturn, hnext]
      rw [herr] at h
      exact absurd h (by simp)
    | ok t =>
      have hb6 : i < 6 := by omega
      have hmod1 : (g.player_bets.getD i 0 + (g.current_bet - g.player_bets.getD i 0)) % U64 =
          g.player_bets.getD i 0 + (g.current_bet - g.player_bets.getD i 0) :=
        Nat.mod_eq_of_lt (by omega)
      have hmod2 : (g.pot + (g.current_bet - g.player_bets.getD i 0)) % U64 =
          g.pot + (g.current_bet - g.player_bets.getD i 0) :=
        Nat.mod_eq_of_lt (by omega)
      have hmod1b : (g.player_bets[i]?.getD 0 + (g.current_bet - g.player_bets[i]?.getD 0)) % U64 =
          g.player_bets[i]?.getD 0 + (g.current_bet - g.player_bets[i]?.getD 0) := by
        simpa using hmod1
      have hmod2b : (g.pot + (g.current_bet - g.player_bets[i]?.getD 0)) % U64 =
          g.pot + (g.current_bet - g.player_bets[i]?.getD 0) := by
        simpa using hmod2
      have hmain : call p g = .ok { g with
          player_bets := g.player_bets.set i
            (g.player_bets.getD i 0 + (g.current_bet - g.player_bets.getD i 0)),
          pot := g.pot + (g.current_bet - g.player_bets.getD i 0),
          current_turn := t } := by
        simp [call, hact, hfind, hnf2, hturn, hnext, hmod1b, hmod2b]
      rw [hmain] at h
      rw [Except.ok.injEq] at h
      subst h
      have hss := sum_set_add g.player_bets i
        (g.player_bets.getD i 0 + (g.current_bet - g.player_bets.getD i 0)) (by omega)
      show g.pot + (g.current_bet - g.player_bets.getD i 0) =
        (g.player_bets.set i
          (g.player_bets.getD i 0 + (g.current_bet - g.player_bets.getD i 0))).sum
      have hinv2 : g.pot = g.player_bets.sum := hinv
      omega
  · intro p amount g g1 i hact hfind hnf hturn hplen hblen hzero hbound hinv h
    have hnf2 : g.folded[i]?.getD false = false := by simpa using hnf
    obtain ⟨hilt, hieq⟩ := position_some g.players p i hfind
    by_cases hamt : amount < g.current_bet
    · have herr : bet p amount g = .error .BetTooLow := by
        simp [bet, hact, hfind, hnf2, hturn, hamt]
      rw [herr] at h
      exact absurd h (by simp)
    · cases hnext : nextActivePlayer g.players g.folded i with
      | error e =>
        have herr : bet p amount g = .error e := by
          simp [bet, hact, hfind, hnf2, hturn, hamt, hnext]
        rw [herr] at h
        exact absurd h (by simp)
      | ok t =>
        have hmain : bet p amount g = .ok { g with
            player_bets := g.player_bets.set i amount,
            pot := g.pot + amount,
            current_bet := amount,
            current_turn := t } := by
          simp [bet, hact, hfind, hnf2, hturn, hamt, hnext, Nat.mod_eq_of_lt hbound]
        rw [hmain] at h
        rw [Except.ok.injEq] at h
        subst h
        have hss := sum_set_add g.player_bets i amount (by omega)
        show g.pot + amount = (g.player_bets.set i amount).sum
        have hinv2 : g.pot = g.player_bets.sum := hinv
        omega

/-- Witness for C1 (amended): the started round gR1 satisfies the
equality, and identity 1 calling in gR1 preserves it. -/
theorem c1_pot_tracking_witness :
    (start_round 0 gJ2 = .ok gR1 ∧ gR1.pot = sumBets gR1) ∧
    (∀ g1, call 1 gR1 = .ok g1 → g1.pot = sumBets g1) :=
  ⟨⟨by decide, c1_pot_tracking.1 0 gJ2 gR1 (by decide)⟩,
    fun g1 h => c1_pot_tracking.2.2.1 1 gR1 g1 0 (by decide) (by decide) (by decide)
      (by decide) (by decide) (by decide) (by decide) (by decide) (by decide) h⟩

/-- Counterexample theorem for C1 as stated: identity 1 joining the
fresh table with deposit 7 is a successful instruction after which the
pot is 7 while every contribution is 0, so pot differs from the
contribution sum in the reachable state gDeposit. -/
theorem c1_pot_counterexample :
    join_game 1 7 gInit = .ok gDeposit ∧ gDeposit.pot = 7 ∧ sumBets gDeposit = 0 := by
  decide

/-- Claim C2: the code violates the counter invariant.  Reached by two
joins, a round, a fold (ending the round by fold-out), and a second
startRound: the second round resets the fold flags but keeps the stale
players_in_round, which is 1 while two occupied, non-folded seats
exist. -/
theorem c2_counter_stale :
    join_game 1 0 gInit = .ok gJ1 ∧ join_game 2 0 gJ1 = .ok gJ2 ∧
    start_round 0 gJ2 = .ok gR1 ∧ fold 1 gR1 = .ok gF1 ∧
    gF1.players_in_round = 1 ∧ countOccNotFolded gF1 = 1 ∧
    start_round 0 gF1 = .ok gR2 ∧
    gR2.players_in_round = 1 ∧ countOccNotFolded gR2 = 2 := by
  decide

/-- Claim C7 (amended): joining preserves seat distinctness only for a
caller who is a fresh, non-sentinel identity; join_game itself performs
no duplicate check. -/
theorem c7_join_distinct (g : Game) (p d : Nat) (g1 : Game)
    (hp : p ≠ 0) (hmem : p ∉ g.players) (hok : seatsOk g.players)
    (hj : join_game p d g = .ok g1) : seatsOk g1.players := by
  cases hpos : position g.players 0 with
  | none =>
    simp [join_game, hpos] at hj
  | some k =>
    have hj2 : g1 = { g with
        players := g.players.set k p,
        players_in_round := (g.players_in_round + 1) % U8,
        pot := if d > 0 then (g.pot + d) % U64 else g.pot } := by
      simp [join_game, hpos] at hj
      exact hj.symm
    obtain ⟨hklt, hk0⟩ := position_some g.players 0 k hpos
    subst hj2
    intro a ha b hb hab ha0
    simp only [List.length_set] at ha hb
    show (g.players.set k p).getD a 0 ≠ (g.players.set k p).getD b 0
    by_cases hak : a = k
    · rw [hak]
      rw [getD_set_self g.players k p hklt]
      by_cases hbk : b = k
      · exact absurd (hak.trans hbk.symm) hab
      · rw [getD_set_ne g.players k p b hbk]
        intro hcontra
        exact hmem (by rw [hcontra]; exact getD_mem g.players b hb)
    · rw [getD_set_ne g.players k p a hak]
      rw [getD_set_ne g.players k p a hak] at ha0
      by_cases hbk : b = k
      · rw [hbk]
        rw [getD_set_self g.players k p hklt]
        intro hcontra
        exact hmem (by rw [← hcontra]; exact getD_mem g.players a ha)
      · rw [getD_set_ne g.players k p b hbk]
        exact hok a ha b hb hab ha0

/-- Witness for C7 (amended): identity 1 joining the empty table keeps
the seats distinct. -/
theorem c7_join_distinct_witness :
    join_game 1 0 gInit = .ok gJ1 ∧ seatsOk gJ1.players :=
  ⟨by decide, c7_join_distinct gInit 1 0 gJ1 (by decide) (by decide) (by decide) (by decide)⟩

/-- Counterexample for C7 as stated: join_game never checks whether the
caller is already seated, so identity 1 joining twice occupies both
seat 0 and seat 1. -/
theorem c7_join_counterexample :
    join_game 1 0 gInit = .ok gJ1 ∧ join_game 1 0 gJ1 = .ok gDup ∧
    gDup.players.getD 0 0 = 1 ∧ gDup.players.getD 1 0 = 1 := by
  decide

/-- Claim C9: the code violates the claimed lower bound.  In the
reachable state gF2 (second round after a fold-out, then one more fold)
every precondition of fold holds for identity 2 — the round is active,
the caller is seated at seat 1, not folded, and holds the turn — while
players_in_round is already 0, so the u8 decrement in fold underflows
(wrapping to 255 here; a panic under overflow checks), after which the
instruction aborts with NoActivePlayers. -/
theorem c9_counter_underflow :
    join_game 1 0 gInit = .ok gJ1 ∧ join_game 2 0 gJ1 = .ok gJ2 ∧
    start_round 0 gJ2 = .ok gR1 ∧ fold 1 gR1 = .ok gF1 ∧
    start_round 0 gF1 = .ok gR2 ∧ fold 1 gR2 = .ok gF2 ∧
    gF2.is_active = true ∧ position gF2.players 2 = some 1 ∧
    gF2.folded.getD 1 false = false ∧ gF2.current_turn = 1 ∧
    gF2.players_in_round = 0 ∧
    (gF2.players_in_round + 255) % U8 = 255 ∧
    fold 2 gF2 = .error .NoActivePlayers := by
  decide
